import Mathlib

/-!
Verification development for the Affective-Computing video emotion
analysis platform.  The frontend (React/TypeScript under
`frontend/src/`) is embedded directly from its source; the backend
pipeline (orchestrator, job store, frame sampler, emotion aggregator,
transcription wrapper) is not part of the repository sources and is
modelled from the specification where indicated.
-/

namespace Affective

/-! ## Frontend data model (`frontend/src/types/index.ts`)

The `AnalysisResponse` interface declares
`status: 'processing' | 'completed' | 'failed'` — a three-value union. -/

/-- The status union of `AnalysisResponse` in `types/index.ts`:
`'processing' | 'completed' | 'failed'`. -/
inductive AnalysisStatus where
  | processing
  | completed
  | failed
deriving DecidableEq, Repr

/-- The literal string carried by each member of the union type. -/
def AnalysisStatus.text : AnalysisStatus → String
  | .processing => "processing"
  | .completed => "completed"
  | .failed => "failed"

/-- All status strings admitted by the `AnalysisResponse.status` union. -/
def statusValues : List String :=
  ["processing", "completed", "failed"]

/-- `EmotionData` from `types/index.ts`. -/
structure EmotionData where
  emotion : String
  confidence : ℚ
  timestamp : ℚ
  frame : ℕ
deriving DecidableEq, Repr

/-- `dominant_emotion` / `dominant_facial_emotion` payload:
`{emotion, percentage}`. -/
structure DominantEmotion where
  emotion : String
  percentage : ℚ
deriving DecidableEq, Repr

/-- `TranscriptionSegment` from `types/index.ts`: `{text, start, end}`
(the `end` field is named `endSec` here because `end` is reserved). -/
structure TranscriptionSegment where
  text : String
  startSec : ℚ
  endSec : ℚ
deriving DecidableEq, Repr

/-- `transcription` payload of an `AnalysisResponse`. -/
structure TranscriptionData where
  text : String
  language : String
  segments : List TranscriptionSegment
deriving DecidableEq, Repr

/-- The `AnalysisResponse` record as consumed by `AnalysisResults.tsx`:
optional new-style fields (`facial_emotions`, `dominant_facial_emotion`)
alongside the legacy fields (`emotions`, `dominant_emotion`), each absent
field modelled as `none`. -/
structure AnalysisResponse where
  id : String
  status : AnalysisStatus
  transcription : Option TranscriptionData
  facial_emotions : Option (List EmotionData)
  emotions : Option (List EmotionData)
  dominant_facial_emotion : Option DominantEmotion
  dominant_emotion : Option DominantEmotion
  error : Option String
deriving DecidableEq, Repr

/-! ## `AnalysisResults.tsx` field fallback

```tsx
const facialEmotions = result.facial_emotions || result.emotions || [];
const dominantFacialEmotion =
  result.dominant_facial_emotion || result.dominant_emotion;
```
A present array (even empty) is truthy in JavaScript, so `||` falls
through only on an absent (`undefined`) field. -/

/-- Facial emotions displayed by `AnalysisResults`:
`result.facial_emotions || result.emotions || []`. -/
def displayedFacialEmotions (r : AnalysisResponse) : List EmotionData :=
  match r.facial_emotions with
  | some v => v
  | none =>
    match r.emotions with
    | some v => v
    | none => []

/-- Dominant emotion displayed by `AnalysisResults`:
`result.dominant_facial_emotion || result.dominant_emotion`. -/
def displayedDominant (r : AnalysisResponse) : Option DominantEmotion :=
  match r.dominant_facial_emotion with
  | some v => some v
  | none => r.dominant_emotion

/-- A response carrying only the new-style field names. -/
def newStyleResponse (i : String) (st : AnalysisStatus)
    (t : Option TranscriptionData) (fe : List EmotionData)
    (de : DominantEmotion) : AnalysisResponse :=
  { id := i, status := st, transcription := t,
    facial_emotions := some fe, emotions := none,
    dominant_facial_emotion := some de, dominant_emotion := none,
    error := none }

/-- A response carrying only the legacy field names. -/
def legacyResponse (i : String) (st : AnalysisStatus)
    (t : Option TranscriptionData) (fe : List EmotionData)
    (de : DominantEmotion) : AnalysisResponse :=
  { id := i, status := st, transcription := t,
    facial_emotions := none, emotions := some fe,
    dominant_facial_emotion := none, dominant_emotion := some de,
    error := none }

/-! ## `VideoRecorder.handleAnalyze` timer behaviour

From the `VideoRecorder` component: after a successful upload the
handler starts `setInterval(pollCallback, 2000)` and
`setTimeout(timeoutCallback, 300000)`.  The poll callback clears the
interval on a terminal status or a fetch error; the timeout callback
clears the interval, resets the progress text and sets the error to
`'Analysis timed out'`.  The return value of `setTimeout` is discarded
and no code path calls `clearTimeout`. -/

/-- UI state touched by `handleAnalyze` and its callbacks:
`error`, `uploadProgress`, the result delivered via
`onAnalysisComplete`, and whether each of the two timers created by
`handleAnalyze` has been cleared. -/
structure UiState where
  error : Option String
  uploadProgress : String
  analysisResult : Option AnalysisResponse
  pollCleared : Bool
  timeoutCleared : Bool
deriving DecidableEq, Repr

/-- State right after `handleAnalyze` scheduled both timers:
no error, progress text `'Processing video...'`, no result, both
timers live. -/
def initialUiState : UiState :=
  { error := none, uploadProgress := "Processing video...",
    analysisResult := none, pollCleared := false, timeoutCleared := false }

/-- One trip through the poll callback: either a response from
`getAnalysisStatus` or a thrown fetch error. -/
inductive PollEvent where
  | response (r : AnalysisResponse)
  | fetchError
deriving Repr

/-- An event processed by the scheduled callbacks: an interval tick or
the 5-minute timeout firing. -/
inductive RecorderEvent where
  | pollTick (e : PollEvent)
  | timeoutFire
deriving Repr

/-- The poll callback body.  A tick has no effect once the interval has
been cleared.  On `status === 'completed'` it clears the interval,
resets the progress text and calls `onAnalysisComplete(result)`; on
`status === 'failed'` it clears the interval and sets
`result.error || 'Analysis failed'`; on a fetch error it clears the
interval and sets `'Failed to fetch analysis status'`; otherwise it
does nothing. -/
def applyPoll (s : UiState) (e : PollEvent) : UiState :=
  if s.pollCleared then s else
  match e with
  | .fetchError =>
    { s with pollCleared := true, uploadProgress := "",
             error := some "Failed to fetch analysis status" }
  | .response r =>
    match r.status with
    | .completed =>
      { s with pollCleared := true, uploadProgress := "",
               analysisResult := some r }
    | .failed =>
      { s with pollCleared := true, uploadProgress := "",
               error := some (r.error.getD "Analysis failed") }
    | .processing => s

/-- The timeout callback body: clears the poll interval, resets the
progress text and sets the error to `'Analysis timed out'`.  It runs
whenever the timeout has not been cleared — and no code in
`handleAnalyze` ever clears it. -/
def applyTimeout (s : UiState) : UiState :=
  if s.timeoutCleared then s else
  { s with pollCleared := true, uploadProgress := "",
           error := some "Analysis timed out" }

/-- Dispatch one scheduled event. -/
def recorderStep (s : UiState) : RecorderEvent → UiState
  | .pollTick e => applyPoll s e
  | .timeoutFire => applyTimeout s

/-- Run a sequence of scheduled events in order. -/
def recorderRun (s : UiState) (evs : List RecorderEvent) : UiState :=
  evs.foldl recorderStep s

/-! ## Backend job lifecycle (modelled from the spec)

The repository sources contain no backend implementation (only setup
documentation), so the job store, orchestrator, frame sampler,
aggregator and transcription wrapper below are modelled from the
specification. -/

/-- Modelled from the spec: the backend job status set
Queued, Processing, Completed, Failed (§3 Data Model).  The backend
implementation is absent from the sources. -/
inductive JobStatus where
  | queued
  | processing
  | completed
  | failed
deriving DecidableEq, Repr

/-- Rank of a status along the one-directional lifecycle
Queued → Processing → {Completed | Failed}. -/
def statusRank : JobStatus → ℕ
  | .queued => 0
  | .processing => 1
  | .completed => 2
  | .failed => 2

/-- A status from which no further transition exists. -/
def isTerminal : JobStatus → Prop
  | .completed => True
  | .failed => True
  | _ => False

instance (s : JobStatus) : Decidable (isTerminal s) := by
  cases s <;> simp [isTerminal] <;> infer_instance

/-- Modelled from the spec: the aggregated report attached to a
Completed job — transcription and facial results, either possibly
absent after a partial failure.  The backend implementation is absent
from the sources. -/
structure JobResult where
  transcription : Option TranscriptionData
  facial_emotions : Option (List EmotionData)
  dominant_facial_emotion : Option DominantEmotion
deriving DecidableEq, Repr

/-- Modelled from the spec: a Job record of the Job Store — status,
`result` (present iff Completed), `error` (present iff Failed) and
`partialFailures` (may be non-empty even when Completed).  The backend
implementation is absent from the sources. -/
structure JobRecord where
  status : JobStatus
  result : Option JobResult
  error : Option String
  partialFailures : List String
deriving DecidableEq, Repr

/-- A freshly created job: status Queued, no result, no error. -/
def mkQueuedJob : JobRecord :=
  { status := .queued, result := none, error := none, partialFailures := [] }

/-- Modelled from the spec: the writes the orchestrator may perform on
a job record — Queued to Processing, then a single atomic terminal
write that sets Completed together with a result, or Failed together
with an error.  The backend implementation is absent from the
sources. -/
inductive JobWrite : JobRecord → JobRecord → Prop where
  | toProcessing (j : JobRecord) (h : j.status = .queued) :
      JobWrite j { j with status := .processing }
  | finalizeCompleted (j : JobRecord) (r : JobResult) (pf : List String)
      (h : j.status = .processing) :
      JobWrite j { status := .completed, result := some r, error := none,
                   partialFailures := pf }
  | finalizeFailed (j : JobRecord) (e : String) (pf : List String)
      (h : j.status = .processing) :
      JobWrite j { status := .failed, result := none, error := some e,
                   partialFailures := pf }

/-- Zero or more orchestrator writes: what can separate two successive
reads of the same job id. -/
def JobReach : JobRecord → JobRecord → Prop :=
  Relation.ReflTransGen JobWrite

/-- The record invariant of §3/§5: `result` present iff Completed and
`error` present iff Failed. -/
def recordConsistent (j : JobRecord) : Prop :=
  (j.result.isSome ↔ j.status = .completed) ∧
  (j.error.isSome ↔ j.status = .failed)

/-! ## Pipeline orchestrator (modelled from the spec) -/

/-- Outcome of the facial branch when it runs to completion: the
per-frame samples plus an optional dominant emotion (absent when no
frame had a detectable face). -/
structure FacialBranchOut where
  samples : List EmotionData
  dominant : Option DominantEmotion
deriving DecidableEq, Repr

/-- Modelled from the spec: the orchestrator's finalization logic
(§4.1).  Audio extraction runs first; if it fails the job is finalized
Failed and neither branch runs (the returned flag records whether the
branches were dispatched).  Otherwise both branch outcomes are joined:
both failed ⇒ Failed; an aggregation error ⇒ Failed; otherwise
Completed with whatever results exist, failed branches recorded in
`partialFailures`.  The backend implementation is absent from the
sources. -/
def runJob (extract : Except String Unit)
    (transOut : Except String TranscriptionData)
    (facialOut : Except String FacialBranchOut)
    (aggError : Option String) : JobRecord × Bool :=
  match extract with
  | .error e =>
    ({ status := .failed, result := none, error := some e,
       partialFailures := [] }, false)
  | .ok _ =>
    let pf : List String :=
      (match transOut with | .error m => [m] | .ok _ => []) ++
      (match facialOut with | .error m => [m] | .ok _ => [])
    match transOut, facialOut with
    | .error et, .error ef =>
      ({ status := .failed, result := none,
         error := some "All analyses failed",
         partialFailures := [et, ef] }, true)
    | t, f =>
      match aggError with
      | some e =>
        ({ status := .failed, result := none, error := some e,
           partialFailures := pf }, true)
      | none =>
        ({ status := .completed,
           result := some
             { transcription := t.toOption,
               facial_emotions := (f.toOption).map FacialBranchOut.samples,
               dominant_facial_emotion := (f.toOption).bind FacialBranchOut.dominant },
           error := none, partialFailures := pf }, true)

/-! ## Emotion aggregator (modelled from the spec) -/

/-- Modelled from the spec: the three outcomes of invoking the facial
adapter on one sampled frame (§4.3).  The backend implementation is
absent from the sources. -/
inductive FrameOutcome where
  | detected (emotion : String)
  | noFace
  | adapterError (msg : String)
deriving DecidableEq, Repr

/-- Emotions of the frames with a successful detection (outcome (a));
frames with no face or an adapter error contribute nothing. -/
def detectedEmotions (frames : List FrameOutcome) : List String :=
  frames.filterMap fun o =>
    match o with
    | .detected e => some e
    | _ => none

/-- Adapter-error notes collected while sampling. -/
def frameErrorNotes (frames : List FrameOutcome) : List String :=
  frames.filterMap fun o =>
    match o with
    | .adapterError m => some m
    | _ => none

/-- Of two emotion labels, the one with the larger count, breaking a
count tie in favour of the lexicographically smaller label. -/
def preferEmotion (cnt : String → ℕ) (a b : String) : String :=
  if cnt a < cnt b ∨ (cnt a = cnt b ∧ b < a) then b else a

/-- Modelled from the spec: the label with the maximum count among the
detected emotions, ties broken by the fixed lexicographic order on
labels (§4.3); `none` when no frame had a detection.  The backend
implementation is absent from the sources. -/
def pickDominantLabel (d : List String) : Option String :=
  match d.dedup with
  | [] => none
  | c :: cs => some (cs.foldl (preferEmotion fun e => d.count e) c)

/-- Modelled from the spec: the facial-emotion aggregation (§4.3).
Counts are taken over detected frames only; the percentage is
`count / total_detected_frames × 100`; zero detected frames produce no
dominant emotion and one extra partial-failure note.  The backend
implementation is absent from the sources. -/
def aggregateFacial (frames : List FrameOutcome) :
    Option DominantEmotion × List String :=
  let d := detectedEmotions frames
  match pickDominantLabel d with
  | none => (none, frameErrorNotes frames ++ ["No face detected in any sampled frame"])
  | some e =>
    (some { emotion := e,
            percentage := (d.count e : ℚ) * 100 / (d.length : ℚ) },
     frameErrorNotes frames)

/-! ## Transcription wrapper segment sanitization (modelled from the spec) -/

/-- The well-formedness the wrapper checks (§3/§4.4): consecutive
segments strictly ascending by start with no overlap. -/
def segChainOk : List TranscriptionSegment → Bool
  | [] => true
  | [_] => true
  | a :: b :: rest =>
    if a.endSec ≤ b.startSec ∧ a.startSec < b.startSec then
      segChainOk (b :: rest)
    else false

/-- Truncate each segment whose start lies before the running previous
end so that it starts exactly at that end; never drops a segment. -/
def clampSegments : ℚ → List TranscriptionSegment → List TranscriptionSegment
  | _, [] => []
  | prevEnd, s :: rest =>
    let s' := if s.startSec < prevEnd then { s with startSec := prevEnd } else s
    s' :: clampSegments s'.endSec rest

/-- Stable sort of segments by ascending start time. -/
def sortSegments (l : List TranscriptionSegment) : List TranscriptionSegment :=
  l.insertionSort fun a b => a.startSec ≤ b.startSec

/-- Modelled from the spec: the wrapper's defensive validation (§4.4).
A raw segment list already in non-overlapping ascending order is
accepted unchanged; otherwise it is re-sorted by start time, every
segment overlapping its predecessor is truncated to start exactly at
the predecessor's end, and the adjustment is recorded as a
partial-failure note.  The backend implementation is absent from the
sources. -/
def sanitizeSegments (l : List TranscriptionSegment) :
    List TranscriptionSegment × List String :=
  if segChainOk l then (l, [])
  else
    match sortSegments l with
    | [] => ([], ["Transcription segments were re-sorted and truncated"])
    | s :: rest =>
      (s :: clampSegments s.endSec rest,
       ["Transcription segments were re-sorted and truncated"])

/-! ## Frame sampler (modelled from the spec) -/

/-- Modelled from the spec: the indices emitted by the frame sampler —
every `stride`-th frame starting at index 0, bounded by the number of
frames (§4.2).  The backend implementation is absent from the
sources. -/
def sampledIndices (numFrames stride : ℕ) : List ℕ :=
  (List.range numFrames).filter fun i => i % stride == 0

/-- Modelled from the spec: the sampler's output sequence — each
emitted index paired with the decoder's actual timestamp for that
frame (§4.2).  The backend implementation is absent from the
sources. -/
def sampleFrames (numFrames stride : ℕ) (timestamp : ℕ → ℚ) :
    List (ℕ × ℚ) :=
  (sampledIndices numFrames stride).map fun i => (i, timestamp i)

/-! ## Job store and reanalysis (modelled from the spec) -/

/-- Modelled from the spec: the keyed job store (§4.5), with numeric
ids.  The backend implementation is absent from the sources. -/
structure JobStore where
  jobs : List (ℕ × JobRecord)
deriving Repr

/-- An id strictly larger than every id in the store. -/
def freshId (st : JobStore) : ℕ :=
  (st.jobs.map Prod.fst).foldr max 0 + 1

/-- Read a job record by id. -/
def lookupJob (st : JobStore) (i : ℕ) : Option JobRecord :=
  st.jobs.lookup i

/-- Modelled from the spec: a reanalysis request always creates a new
Job under a fresh id and never mutates any prior record (§3).  The
backend implementation is absent from the sources. -/
def reanalyze (st : JobStore) : JobStore × ℕ :=
  (⟨(freshId st, mkQueuedJob) :: st.jobs⟩, freshId st)

/-- A job record mid-pipeline: Processing, nothing written yet. -/
def procJob : JobRecord :=
  { mkQueuedJob with status := .processing }

/-- A finalized Completed job record with an empty aggregate report. -/
def doneJob : JobRecord :=
  { status := .completed, result := some ⟨none, none, none⟩, error := none,
    partialFailures := [] }

/-- A sample polling trace: Queued, then Processing, then Completed
forever. -/
def sampleTrace : ℕ → JobRecord
  | 0 => mkQueuedJob
  | 1 => procJob
  | _ => doneJob

/-! ## Theorems -/

theorem recorderStep_timeoutCleared (s : UiState) (ev : RecorderEvent) :
    (recorderStep s ev).timeoutCleared = s.timeoutCleared := by
  cases ev with
  | pollTick e =>
    cases e with
    | fetchError => simp [recorderStep, applyPoll]; split <;> rfl
    | response r =>
      simp only [recorderStep, applyPoll]
      split
      · rfl
      · cases r.status <;> rfl
  | timeoutFire =>
    simp [recorderStep, applyTimeout]; split <;> rfl

theorem recorderRun_timeoutCleared (evs : List RecorderEvent) (s : UiState) :
    (recorderRun s evs).timeoutCleared = s.timeoutCleared := by
  induction evs generalizing s with
  | nil => rfl
  | cons ev rest ih =>
    simp only [recorderRun, List.foldl_cons] at *
    rw [ih, recorderStep_timeoutCleared]

/-- C9: the 5-minute timeout scheduled by `handleAnalyze` is never
cleared by any callback, so after any sequence of poll events it still
fires, clearing the poll interval, resetting the progress text and
overwriting the error state with 'Analysis timed out' — while leaving
any previously delivered completion result in place. -/
theorem timeout_always_fires (evs : List RecorderEvent) :
    (recorderRun initialUiState evs).timeoutCleared = false ∧
    (recorderRun initialUiState (evs ++ [.timeoutFire])).error =
      some "Analysis timed out" ∧
    (recorderRun initialUiState (evs ++ [.timeoutFire])).uploadProgress = "" ∧
    (recorderRun initialUiState (evs ++ [.timeoutFire])).pollCleared = true ∧
    (recorderRun initialUiState (evs ++ [.timeoutFire])).analysisResult =
      (recorderRun initialUiState evs).analysisResult := by
  have hnc : (recorderRun initialUiState evs).timeoutCleared = false := by
    rw [recorderRun_timeoutCleared]; rfl
  have happ : recorderRun initialUiState (evs ++ [.timeoutFire]) =
      applyTimeout (recorderRun initialUiState evs) := by
    simp [recorderRun, List.foldl_append, recorderStep]
  refine ⟨hnc, ?_, ?_, ?_, ?_⟩ <;> rw [happ] <;> simp [applyTimeout, hnc]

/-- C5 counterexample: the `AnalysisResponse.status` union in
`types/index.ts` admits exactly three values — 'processing',
'completed', 'failed' — and none of its members is a Queued status, so
a job can never be observed in a Queued state through this type. -/
theorem statusValues_no_queued :
    statusValues = ["processing", "completed", "failed"] ∧
    statusValues.length = 3 ∧
    "Queued" ∉ statusValues ∧
    "queued" ∉ statusValues ∧
    AnalysisStatus.processing.text ≠ "Queued" ∧
    AnalysisStatus.completed.text ≠ "Queued" ∧
    AnalysisStatus.failed.text ≠ "Queued" ∧
    AnalysisStatus.processing.text ≠ "queued" ∧
    AnalysisStatus.completed.text ≠ "queued" ∧
    AnalysisStatus.failed.text ≠ "queued" := by
  refine ⟨rfl, rfl, ?_, ?_, ?_, ?_, ?_, ?_, ?_, ?_⟩ <;> decide

/-- C5 (amended): every status carried by an `AnalysisResponse` is
drawn from exactly the three values 'processing', 'completed',
'failed' declared in `types/index.ts`; no Queued state is observable
through this type. -/
theorem status_in_three_values (r : AnalysisResponse) :
    r.status.text ∈ statusValues ∧ r.status.text ≠ "Queued" ∧
    r.status.text ≠ "queued" := by
  cases h : r.status <;> simp [AnalysisStatus.text, statusValues]

/-- C10: `AnalysisResults` displays `facial_emotions` when present and
otherwise falls back to the legacy `emotions` field, defaulting to the
empty list when both are absent; likewise `dominant_facial_emotion`
falls back to `dominant_emotion`.  A response carrying only legacy
field names therefore renders identically to one carrying the new
names. -/
theorem analysis_results_fallback :
    (∀ (r : AnalysisResponse) (v : List EmotionData),
      r.facial_emotions = some v → displayedFacialEmotions r = v) ∧
    (∀ r : AnalysisResponse, r.facial_emotions = none →
      displayedFacialEmotions r = r.emotions.getD []) ∧
    (∀ (r : AnalysisResponse) (d : DominantEmotion),
      r.dominant_facial_emotion = some d → displayedDominant r = some d) ∧
    (∀ r : AnalysisResponse, r.dominant_facial_emotion = none →
      displayedDominant r = r.dominant_emotion) ∧
    (∀ i st t fe de,
      displayedFacialEmotions (legacyResponse i st t fe de) =
        displayedFacialEmotions (newStyleResponse i st t fe de) ∧
      displayedDominant (legacyResponse i st t fe de) =
        displayedDominant (newStyleResponse i st t fe de)) := by
  refine ⟨?_, ?_, ?_, ?_, ?_⟩
  · intro r v h; simp [displayedFacialEmotions, h]
  · intro r h
    simp only [displayedFacialEmotions, h]
    cases r.emotions <;> rfl
  · intro r d h; simp [displayedDominant, h]
  · intro r h; simp [displayedDominant, h]
  · intro i st t fe de
    exact ⟨rfl, rfl⟩

/-- Witness for the fallback theorem: with a concrete legacy-only
response, the displayed fields are the legacy ones, and a legacy-only
response renders like a new-style one. -/
theorem analysis_results_fallback_witness :
    displayedFacialEmotions
      (legacyResponse "v1" .completed none [⟨"happy", 9/10, 1, 0⟩]
        ⟨"happy", 100⟩) = [⟨"happy", 9/10, 1, 0⟩] ∧
    displayedDominant
      (legacyResponse "v1" .completed none [⟨"happy", 9/10, 1, 0⟩]
        ⟨"happy", 100⟩) = some ⟨"happy", 100⟩ := by
  have h := analysis_results_fallback
  refine ⟨?_, ?_⟩
  · have := (h.2.2.2.2 "v1" .completed none [⟨"happy", 9/10, 1, 0⟩]
      ⟨"happy", 100⟩).1
    rw [this]
    exact h.1 _ _ rfl
  · have := (h.2.2.2.2 "v1" .completed none [⟨"happy", 9/10, 1, 0⟩]
      ⟨"happy", 100⟩).2
    rw [this]
    exact h.2.2.1 _ _ rfl

theorem jobWrite_rank {j j' : JobRecord} (h : JobWrite j j') :
    statusRank j.status < statusRank j'.status := by
  cases h with
  | toProcessing hq => simp [hq, statusRank]
  | finalizeCompleted r pf hp => simp [hp, statusRank]
  | finalizeFailed e pf hp => simp [hp, statusRank]

theorem jobReach_rank {j j' : JobRecord} (h : JobReach j j') :
    statusRank j.status ≤ statusRank j'.status := by
  induction h with
  | refl => exact le_refl _
  | tail _ hbc ih => exact le_trans ih (le_of_lt (jobWrite_rank hbc))


theorem terminal_no_jobWrite {j j' : JobRecord} (ht : isTerminal j.status)
    (h : JobWrite j j') : False := by
  cases h with
  | toProcessing hq => rw [hq] at ht; simp [isTerminal] at ht
  | finalizeCompleted r pf hp => rw [hp] at ht; simp [isTerminal] at ht
  | finalizeFailed e pf hp => rw [hp] at ht; simp [isTerminal] at ht

theorem terminal_jobReach_eq {j j' : JobRecord} (ht : isTerminal j.status)
    (h : JobReach j j') : j' = j := by
  rcases Relation.ReflTransGen.cases_head h with heq | ⟨c, hjc, _⟩
  · exact heq.symm
  · exact (terminal_no_jobWrite ht hjc).elim

theorem trace_jobReach (obs : ℕ → JobRecord)
    (hstep : ∀ n, JobReach (obs n) (obs (n + 1))) :
    ∀ i j, i ≤ j → JobReach (obs i) (obs j) := by
  intro i j hij
  induction j, hij using Nat.le_induction with
  | base => exact Relation.ReflTransGen.refl
  | succ n hin ih => exact ih.trans (hstep n)

/-- C2: along any polling trace of a job (successive reads separated
by zero or more orchestrator writes) the status only advances along
Queued → Processing → {Completed | Failed}, and once a terminal status
is observed the record — in particular its status — never changes
again. -/
theorem status_monotone_terminal_immutable (obs : ℕ → JobRecord)
    (hstep : ∀ n, JobReach (obs n) (obs (n + 1))) :
    (∀ i j, i ≤ j → statusRank (obs i).status ≤ statusRank (obs j).status) ∧
    (∀ i j, i ≤ j → isTerminal (obs i).status → obs j = obs i) := by
  refine ⟨?_, ?_⟩
  · intro i j hij
    exact jobReach_rank (trace_jobReach obs hstep i j hij)
  · intro i j hij ht
    exact terminal_jobReach_eq ht (trace_jobReach obs hstep i j hij)

theorem sampleTrace_steps : ∀ n, JobReach (sampleTrace n) (sampleTrace (n + 1)) := by
  intro n
  match n with
  | 0 =>
    exact Relation.ReflTransGen.single (JobWrite.toProcessing mkQueuedJob rfl)
  | 1 =>
    exact Relation.ReflTransGen.single
      (JobWrite.finalizeCompleted procJob ⟨none, none, none⟩ [] rfl)
  | (k + 2) => exact Relation.ReflTransGen.refl

/-- Witness: on the concrete Queued → Processing → Completed trace the
ranks are monotone and the terminal record observed at query 2 is still
unchanged at query 3. -/
theorem status_monotone_witness :
    statusRank (sampleTrace 0).status ≤ statusRank (sampleTrace 2).status ∧
    sampleTrace 3 = sampleTrace 2 := by
  have h := status_monotone_terminal_immutable sampleTrace sampleTrace_steps
  exact ⟨h.1 0 2 (by decide), h.2 2 3 (by decide) (by decide)⟩

/-- C3: every record reachable from a fresh Queued job satisfies the
atomic-finalization invariant — `result` is present iff the status is
Completed and `error` is present iff the status is Failed; no reader
ever sees Completed with an unset result or Failed with a populated
result. -/
theorem record_result_error_consistent (j : JobRecord)
    (h : JobReach mkQueuedJob j) : recordConsistent j := by
  induction h with
  | refl => exact ⟨by simp [mkQueuedJob], by simp [mkQueuedJob]⟩
  | tail _ hstep ih =>
    cases hstep with
    | toProcessing hq =>
      obtain ⟨h1, h2⟩ := ih
      rw [hq] at h1 h2
      simp at h1 h2
      exact ⟨by simp [h1], by simp [h2]⟩
    | finalizeCompleted r pf hp => exact ⟨by simp, by simp⟩
    | finalizeFailed e pf hp => exact ⟨by simp, by simp⟩

/-- Witness: the invariant holds at the concrete Completed record
reached by Queued → Processing → Completed. -/
theorem record_consistent_witness : recordConsistent doneJob :=
  record_result_error_consistent doneJob
    (Relation.ReflTransGen.tail
      (Relation.ReflTransGen.single (JobWrite.toProcessing mkQueuedJob rfl))
      (JobWrite.finalizeCompleted procJob ⟨none, none, none⟩ [] rfl))

/-- C7: the frame sampler emits exactly the indices that are multiples
of the stride and below the frame count, in increasing order; a
90-frame source at stride 30 yields exactly [0, 30, 60]; any source
with at least one frame yields index 0; a zero-frame source yields the
empty sequence, and each emitted index is paired with the decoder's
timestamp for that frame. -/
theorem sampler_indices (n stride : ℕ) (hs : 0 < stride) :
    (∀ i, i ∈ sampledIndices n stride ↔ (∃ k, i = stride * k) ∧ i < n) ∧
    List.Sorted (· < ·) (sampledIndices n stride) ∧
    (1 ≤ n → 0 ∈ sampledIndices n stride) ∧
    sampledIndices 0 stride = [] ∧
    sampledIndices 90 30 = [0, 30, 60] ∧
    (∀ ts : ℕ → ℚ, sampleFrames n stride ts =
      (sampledIndices n stride).map fun i => (i, ts i)) := by
  refine ⟨?_, ?_, ?_, ?_, by decide, fun ts => rfl⟩
  · intro i
    simp only [sampledIndices, List.mem_filter, List.mem_range, beq_iff_eq]
    constructor
    · rintro ⟨hlt, hmod⟩
      refine ⟨?_, hlt⟩
      obtain ⟨k, hk⟩ := Nat.dvd_iff_mod_eq_zero.mpr hmod
      exact ⟨k, hk⟩
    · rintro ⟨⟨k, hk⟩, hlt⟩
      refine ⟨hlt, ?_⟩
      exact Nat.dvd_iff_mod_eq_zero.mp ⟨k, hk⟩
  · exact (List.sorted_lt_range n).filter _
  · intro hn
    simp only [sampledIndices, List.mem_filter, List.mem_range, beq_iff_eq]
    exact ⟨hn, Nat.zero_mod stride⟩
  · rfl

/-- Witness: the sampler conclusions at the concrete 90-frame,
stride-30 source. -/
theorem sampler_indices_witness :
    (30 ∈ sampledIndices 90 30 ↔ (∃ k, 30 = 30 * k) ∧ 30 < 90) ∧
    0 ∈ sampledIndices 90 30 ∧
    sampledIndices 90 30 = [0, 30, 60] := by
  have h := sampler_indices 90 30 (by decide)
  exact ⟨h.1 30, h.2.2.1 (by decide), h.2.2.2.2.1⟩

theorem mem_le_foldr_max (l : List ℕ) (a : ℕ) (h : a ∈ l) :
    a ≤ l.foldr max 0 := by
  induction l with
  | nil => cases h
  | cons b t ih =>
    rcases List.mem_cons.mp h with rfl | hmem
    · exact le_max_left _ _
    · exact le_trans (ih hmem) (le_max_right _ _)

theorem lookup_mem_keys (l : List (ℕ × JobRecord)) (i : ℕ) (j : JobRecord)
    (h : l.lookup i = some j) : i ∈ l.map Prod.fst := by
  induction l with
  | nil => simp [List.lookup] at h
  | cons p t ih =>
    rw [List.lookup] at h
    by_cases he : i = p.1
    · simp [he]
    · have hne : (i == p.1) = false := beq_false_of_ne he
      rw [hne] at h
      simp only [List.map_cons, List.mem_cons]
      exact Or.inr (ih h)

theorem freshId_not_key (st : JobStore) : lookupJob st (freshId st) = none := by
  cases h : lookupJob st (freshId st) with
  | none => rfl
  | some j =>
    have hmem := lookup_mem_keys st.jobs (freshId st) j h
    have hle := mem_le_foldr_max (st.jobs.map Prod.fst) (freshId st) hmem
    simp only [freshId] at hle
    omega

/-- C8: a reanalysis request creates a new Queued job under an id not
present in the store, and every record previously in the store — in
particular any terminal one — is still read back entirely unchanged
afterwards. -/
theorem reanalyze_fresh_and_preserving (st : JobStore) :
    lookupJob st (reanalyze st).2 = none ∧
    lookupJob (reanalyze st).1 (reanalyze st).2 = some mkQueuedJob ∧
    mkQueuedJob.status = .queued ∧
    (∀ i j, lookupJob st i = some j → lookupJob (reanalyze st).1 i = some j) := by
  refine ⟨freshId_not_key st, ?_, rfl, ?_⟩
  · simp [lookupJob, reanalyze, List.lookup]
  · intro i j h
    have hne : i ≠ freshId st := by
      intro he
      rw [he, freshId_not_key st] at h
      cases h
    simp only [lookupJob, reanalyze, List.lookup, beq_false_of_ne hne]
    exact h

/-- Witness: reanalyzing on a store holding one terminal record leaves
that record readable unchanged and registers the fresh job as
Queued. -/
theorem reanalyze_witness :
    lookupJob (reanalyze ⟨[(1, doneJob)]⟩).1 1 = some doneJob ∧
    lookupJob ⟨[(1, doneJob)]⟩ (reanalyze ⟨[(1, doneJob)]⟩).2 = none ∧
    lookupJob (reanalyze ⟨[(1, doneJob)]⟩).1 (reanalyze ⟨[(1, doneJob)]⟩).2 =
      some mkQueuedJob := by
  have h := reanalyze_fresh_and_preserving ⟨[(1, doneJob)]⟩
  exact ⟨h.2.2.2 1 doneJob rfl, h.1, h.2.1⟩

/-- C1: the terminal status of a job is determined by the branch
outcomes — a failed extraction finalizes the job Failed with the
branches never dispatched; otherwise the job is Completed whenever at
least one branch produced a usable result and the join step did not
error, and Failed exactly when both branches failed or the
join/aggregation step itself errored.  A facial-branch failure with a
succeeding transcription branch yields a Completed record with the
transcription present, no dominant facial emotion and a non-empty
`partialFailures`. -/
theorem job_finalization
    (ext : Except String Unit)
    (t : Except String TranscriptionData)
    (f : Except String FacialBranchOut)
    (agg : Option String) :
    (∀ e, ext = .error e →
      runJob ext t f agg =
        ({ status := .failed, result := none, error := some e,
           partialFailures := [] }, false)) ∧
    (ext = .ok () → (t.toOption.isSome ∨ f.toOption.isSome) → agg = none →
      (runJob ext t f agg).1.status = .completed ∧
      (runJob ext t f agg).2 = true) ∧
    (∀ et ef, ext = .ok () → t = .error et → f = .error ef →
      (runJob ext t f agg).1.status = .failed) ∧
    (∀ e, ext = .ok () → (t.toOption.isSome ∨ f.toOption.isSome) →
      agg = some e → (runJob ext t f agg).1.status = .failed) ∧
    (∀ td m, runJob (.ok ()) (.ok td) (.error m) none =
      ({ status := .completed,
         result := some { transcription := some td, facial_emotions := none,
                          dominant_facial_emotion := none },
         error := none, partialFailures := [m] }, true)) := by
  refine ⟨?_, ?_, ?_, ?_, ?_⟩
  · rintro e rfl; rfl
  · rintro rfl hok rfl
    cases t <;> cases f <;> simp_all [runJob, Except.toOption]
  · rintro et ef rfl rfl rfl; exact rfl
  · rintro e rfl hok rfl
    cases t <;> cases f <;> simp_all [runJob, Except.toOption]
  · intro td m; rfl

/-- Witness: the extraction-failure, partial-failure and
both-branch-failure scenarios at concrete inputs. -/
theorem job_finalization_witness :
    runJob (.error "ffmpeg exited with code 1")
      (.ok ⟨"hi", "en", []⟩) (.error "DeepFace crashed") none =
      ({ status := .failed, result := none,
         error := some "ffmpeg exited with code 1",
         partialFailures := [] }, false) ∧
    runJob (.ok ()) (.ok ⟨"hi", "en", []⟩) (.error "DeepFace crashed") none =
      ({ status := .completed,
         result := some { transcription := some ⟨"hi", "en", []⟩,
                          facial_emotions := none,
                          dominant_facial_emotion := none },
         error := none, partialFailures := ["DeepFace crashed"] }, true) ∧
    (runJob (.ok ()) (Except.error "whisper failed")
      (Except.error "DeepFace crashed" : Except String FacialBranchOut)
      none).1.status = .failed := by
  refine ⟨?_, ?_, ?_⟩
  · exact (job_finalization (.error "ffmpeg exited with code 1")
      (.ok ⟨"hi", "en", []⟩) (.error "DeepFace crashed") none).1
      "ffmpeg exited with code 1" rfl
  · exact (job_finalization (.ok ()) (.ok ⟨"hi", "en", []⟩)
      (.error "DeepFace crashed") none).2.2.2.2 ⟨"hi", "en", []⟩
      "DeepFace crashed"
  · exact (job_finalization (.ok ()) (Except.error "whisper failed")
      (Except.error "DeepFace crashed") none).2.2.1
      "whisper failed" "DeepFace crashed" rfl rfl rfl

theorem clampSegments_length (l : List TranscriptionSegment) :
    ∀ p, (clampSegments p l).length = l.length := by
  induction l with
  | nil => intro p; rfl
  | cons s rest ih =>
    intro p
    simp only [clampSegments, List.length_cons, ih]

theorem clampSegments_head_ge (p : ℚ) (l : List TranscriptionSegment) :
    ∀ s ∈ (clampSegments p l).head?, p ≤ s.startSec := by
  cases l with
  | nil => simp [clampSegments]
  | cons a rest =>
    simp only [clampSegments, List.head?_cons, Option.mem_def,
      Option.some.injEq]
    intro s hs
    subst hs
    split
    · exact le_refl p
    · rename_i hnot
      exact le_of_not_lt hnot

theorem clampSegments_chain (l : List TranscriptionSegment) :
    ∀ p, List.Chain' (fun a b => a.endSec ≤ b.startSec) (clampSegments p l) := by
  induction l with
  | nil => intro p; simp [clampSegments]
  | cons a rest ih =>
    intro p
    simp only [clampSegments]
    rw [List.chain'_cons']
    exact ⟨clampSegments_head_ge _ rest, ih _⟩

/-- C6: when a raw adapter output violates non-overlapping ascending
segment order, the wrapper re-sorts it and truncates each segment that
would overlap its predecessor to start exactly at the predecessor's
end — the output has the same number of segments (nothing dropped),
consecutive output segments never overlap, and a partial-failure note
is recorded; in particular raw [(0,5),(3,8)] is sanitized to
[(0,5),(5,8)]. -/
theorem segment_sanitization (l : List TranscriptionSegment)
    (h : segChainOk l = false) :
    (sanitizeSegments l).1.length = l.length ∧
    List.Chain' (fun a b => a.endSec ≤ b.startSec) (sanitizeSegments l).1 ∧
    (sanitizeSegments l).2 ≠ [] ∧
    sanitizeSegments [⟨"a", 0, 5⟩, ⟨"b", 3, 8⟩] =
      ([⟨"a", 0, 5⟩, ⟨"b", 5, 8⟩],
       ["Transcription segments were re-sorted and truncated"]) := by
  have hperm := List.perm_insertionSort
    (fun a b : TranscriptionSegment => a.startSec ≤ b.startSec) l
  have hnot : ¬ (segChainOk l = true) := by simp [h]
  rw [sanitizeSegments, if_neg hnot]
  cases hs : sortSegments l with
  | nil =>
    exfalso
    have hlen := hperm.length_eq
    rw [sortSegments] at hs
    rw [hs] at hlen
    have hl : l = [] := List.eq_nil_of_length_eq_zero hlen.symm
    rw [hl] at h
    simp [segChainOk] at h
  | cons s rest =>
    have hlen := hperm.length_eq
    rw [sortSegments] at hs
    rw [hs] at hlen
    refine ⟨?_, ?_, ?_, by decide⟩
    · simp only [List.length_cons, clampSegments_length]
      rw [← hlen]
      rfl
    · rw [List.chain'_cons']
      exact ⟨clampSegments_head_ge _ rest, clampSegments_chain rest _⟩
    · simp

/-- Witness: the sanitizer conclusions at the concrete overlapping
input [(0,5),(3,8)]. -/
theorem segment_sanitization_witness :
    (sanitizeSegments [⟨"a", 0, 5⟩, ⟨"b", 3, 8⟩]).1.length = 2 ∧
    (sanitizeSegments [⟨"a", 0, 5⟩, ⟨"b", 3, 8⟩]).2 ≠ [] := by
  have h := segment_sanitization [⟨"a", 0, 5⟩, ⟨"b", 3, 8⟩] (by decide)
  exact ⟨h.1, h.2.2.1⟩

theorem preferEmotion_cases (cnt : String → ℕ) (a b : String) :
    preferEmotion cnt a b = a ∨ preferEmotion cnt a b = b := by
  unfold preferEmotion
  split
  · exact Or.inr rfl
  · exact Or.inl rfl

theorem preferEmotion_dom_left (cnt : String → ℕ) (a b : String) :
    cnt a < cnt (preferEmotion cnt a b) ∨
      (cnt a = cnt (preferEmotion cnt a b) ∧ preferEmotion cnt a b ≤ a) := by
  unfold preferEmotion
  split
  · rename_i hcond
    rcases hcond with hlt | ⟨heq, hlt⟩
    · exact Or.inl hlt
    · exact Or.inr ⟨heq, le_of_lt hlt⟩
  · exact Or.inr ⟨rfl, le_refl a⟩

theorem preferEmotion_dom_right (cnt : String → ℕ) (a b : String) :
    cnt b < cnt (preferEmotion cnt a b) ∨
      (cnt b = cnt (preferEmotion cnt a b) ∧ preferEmotion cnt a b ≤ b) := by
  unfold preferEmotion
  split
  · exact Or.inr ⟨rfl, le_refl b⟩
  · rename_i hcond
    push_neg at hcond
    obtain ⟨h1, h2⟩ := hcond
    rcases lt_or_eq_of_le h1 with hlt | heq
    · exact Or.inl hlt
    · exact Or.inr ⟨heq, h2 heq.symm⟩

theorem emotion_dom_trans {cnt : String → ℕ} {r y x : String}
    (h1 : cnt y < cnt r ∨ (cnt y = cnt r ∧ r ≤ y))
    (h2 : cnt x < cnt y ∨ (cnt x = cnt y ∧ y ≤ x)) :
    cnt x < cnt r ∨ (cnt x = cnt r ∧ r ≤ x) := by
  rcases h1 with h1 | ⟨e1, l1⟩ <;> rcases h2 with h2 | ⟨e2, l2⟩
  · exact Or.inl (lt_trans h2 h1)
  · exact Or.inl (by omega)
  · exact Or.inl (by omega)
  · exact Or.inr ⟨by omega, le_trans l1 l2⟩

theorem foldl_prefer_spec (cnt : String → ℕ) :
    ∀ (cs : List String) (c : String),
      cs.foldl (preferEmotion cnt) c ∈ c :: cs ∧
      ∀ x ∈ c :: cs,
        cnt x < cnt (cs.foldl (preferEmotion cnt) c) ∨
        (cnt x = cnt (cs.foldl (preferEmotion cnt) c) ∧
          cs.foldl (preferEmotion cnt) c ≤ x) := by
  intro cs
  induction cs with
  | nil =>
    intro c
    refine ⟨List.mem_singleton_self c, ?_⟩
    intro x hx
    rw [List.mem_singleton] at hx
    subst hx
    exact Or.inr ⟨rfl, le_refl _⟩
  | cons b bs ih =>
    intro c
    rw [List.foldl_cons]
    obtain ⟨hmem, hdom⟩ := ih (preferEmotion cnt c b)
    constructor
    · rcases List.mem_cons.mp hmem with heq | hmem2
      · rcases preferEmotion_cases cnt c b with hc | hb
        · rw [heq, hc]; exact List.mem_cons_self _ _
        · rw [heq, hb]
          exact List.mem_cons_of_mem _ (List.mem_cons_self _ _)
      · exact List.mem_cons_of_mem _ (List.mem_cons_of_mem _ hmem2)
    · intro x hx
      rcases List.mem_cons.mp hx with rfl | hx2
      · exact emotion_dom_trans
          (hdom _ (List.mem_cons_self _ _)) (preferEmotion_dom_left cnt x b)
      rcases List.mem_cons.mp hx2 with rfl | hx3
      · exact emotion_dom_trans
          (hdom _ (List.mem_cons_self _ _)) (preferEmotion_dom_right cnt c x)
      · exact hdom x (List.mem_cons_of_mem _ hx3)

theorem pickDominantLabel_spec (d : List String) (e : String)
    (h : pickDominantLabel d = some e) :
    e ∈ d ∧ ∀ x ∈ d,
      d.count x < d.count e ∨ (d.count x = d.count e ∧ e ≤ x) := by
  unfold pickDominantLabel at h
  cases hd : d.dedup with
  | nil => rw [hd] at h; cases h
  | cons c cs =>
    rw [hd] at h
    obtain ⟨hmem, hdom⟩ := foldl_prefer_spec (fun x => d.count x) cs c
    injection h with he
    subst he
    constructor
    · exact List.mem_dedup.mp (hd ▸ hmem)
    · intro x hx
      have hx' : x ∈ d.dedup := List.mem_dedup.mpr hx
      rw [hd] at hx'
      exact hdom x hx'

/-- C4: for every finite sequence of frame outcomes the aggregator
returns the emotion with the maximum count among successfully detected
frames (count ties broken towards the lexicographically smaller
label), with percentage equal to count over detected frames times 100
— frames with no face and adapter errors are excluded from both
numerator and denominator; counts {happy:5, neutral:3} over 8 detected
frames yield exactly (happy, 62.5); and with zero detected frames no
dominant emotion is produced and a partial-failure note is recorded
instead. -/
theorem facial_aggregation (frames : List FrameOutcome) :
    (∀ dom, (aggregateFacial frames).1 = some dom →
      dom.emotion ∈ detectedEmotions frames ∧
      (∀ x ∈ detectedEmotions frames,
        (detectedEmotions frames).count x ≤
          (detectedEmotions frames).count dom.emotion) ∧
      (∀ x ∈ detectedEmotions frames,
        (detectedEmotions frames).count x =
            (detectedEmotions frames).count dom.emotion →
          dom.emotion ≤ x) ∧
      dom.percentage =
        ((detectedEmotions frames).count dom.emotion : ℚ) * 100 /
          ((detectedEmotions frames).length : ℚ)) ∧
    (detectedEmotions frames = [] →
      (aggregateFacial frames).1 = none ∧ (aggregateFacial frames).2 ≠ []) ∧
    aggregateFacial (List.replicate 5 (FrameOutcome.detected "happy") ++
        List.replicate 3 (FrameOutcome.detected "neutral")) =
      (some ⟨"happy", 125 / 2⟩, []) := by
  refine ⟨?_, ?_, ?_⟩
  · intro dom hdom
    cases hp : pickDominantLabel (detectedEmotions frames) with
    | none =>
      rw [aggregateFacial] at hdom
      simp only [hp] at hdom
      cases hdom
    | some e =>
      rw [aggregateFacial] at hdom
      simp only [hp] at hdom
      injection hdom with hdom
      subst hdom
      dsimp only
      obtain ⟨hmem, hspec⟩ := pickDominantLabel_spec _ e hp
      refine ⟨hmem, ?_, ?_, rfl⟩
      · intro x hx
        rcases hspec x hx with hlt | ⟨heq, _⟩
        · exact le_of_lt hlt
        · exact le_of_eq heq
      · intro x hx heq
        rcases hspec x hx with hlt | ⟨_, hle⟩
        · omega
        · exact hle
  · intro hnil
    have hd : (detectedEmotions frames).dedup = [] := by rw [hnil]; rfl
    have hp : pickDominantLabel (detectedEmotions frames) = none := by
      rw [pickDominantLabel, hd]
    rw [aggregateFacial]
    simp only [hp]
    refine ⟨?_, ?_⟩ <;> simp
  · have h5 : pickDominantLabel (detectedEmotions
        (List.replicate 5 (FrameOutcome.detected "happy") ++
          List.replicate 3 (FrameOutcome.detected "neutral"))) =
        some "happy" := by decide
    have hc : (detectedEmotions
        (List.replicate 5 (FrameOutcome.detected "happy") ++
          List.replicate 3 (FrameOutcome.detected "neutral"))).count
        "happy" = 5 := by decide
    have hl : (detectedEmotions
        (List.replicate 5 (FrameOutcome.detected "happy") ++
          List.replicate 3 (FrameOutcome.detected "neutral"))).length = 8 := by
      decide
    have hn : frameErrorNotes
        (List.replicate 5 (FrameOutcome.detected "happy") ++
          List.replicate 3 (FrameOutcome.detected "neutral")) = [] := by decide
    rw [aggregateFacial]
    simp only [h5, hc, hl, hn]
    simp only [Prod.mk.injEq, Option.some.injEq, DominantEmotion.mk.injEq]
    norm_num

/-- Witness: the aggregation conclusions at the concrete 5-happy,
3-neutral sample list. -/
theorem facial_aggregation_witness :
    (⟨"happy", 125 / 2⟩ : DominantEmotion).emotion ∈ detectedEmotions
      (List.replicate 5 (FrameOutcome.detected "happy") ++
        List.replicate 3 (FrameOutcome.detected "neutral")) := by
  have h := facial_aggregation
    (List.replicate 5 (FrameOutcome.detected "happy") ++
      List.replicate 3 (FrameOutcome.detected "neutral"))
  exact (h.1 ⟨"happy", 125 / 2⟩ (by rw [h.2.2])).1

end Affective
